import Mathlib

/-!
Verification of the retrieval-pipeline backend (rag.py, scraper.py,
excel_generator.py, visuals.py) against its natural-language specification.

The Python sources are shallowly embedded: external services (the Pinecone
index store, the remote embedding HTTP API, the Groq chat LLM, the HTTP
fetch / trafilatura / BeautifulSoup extractors) are passed in as explicit
function or value parameters, Python strings are Lean `String`s, and
exceptions raised by an external call are modelled by `Option` results
(`none` = the call raised, or yielded nothing).  Python string helpers
(`str.strip`, `str.lower`, `str.split`, `str.join`) are modelled over the
underlying character list.
-/

namespace MajprojBack

/-! ## Python string primitives -/

/-- `str.strip()` on the character list: drop whitespace from both ends
(mirrors Python's default-argument strip). -/
def stripChars (l : List Char) : List Char :=
  ((l.dropWhile Char.isWhitespace).reverse.dropWhile Char.isWhitespace).reverse

/-- Python `s.strip()`. -/
def pyStrip (s : String) : String := String.mk (stripChars s.data)

/-- Python `s.lower()` (modelled with `Char.toLower`, which covers the
basic-latin letters). -/
def pyLower (s : String) : String := String.mk (s.data.map Char.toLower)

/-- Python `sep.join(parts)`. -/
def pyJoin (sep : String) : List String → String
  | [] => ""
  | [p] => p
  | p :: q :: ps => p ++ (sep ++ pyJoin sep (q :: ps))

/-- Whitespace-delimited word splitting on the character list:
maximal runs of non-whitespace characters, in order. -/
def splitWords (l : List Char) : List (List Char) :=
  match l with
  | [] => []
  | c :: cs =>
    if c.isWhitespace then splitWords cs
    else (c :: cs.takeWhile (fun x => !x.isWhitespace)) ::
      splitWords (cs.dropWhile (fun x => !x.isWhitespace))
termination_by l.length
decreasing_by
  · simp
  · exact Nat.lt_succ_of_le ((List.dropWhile_sublist _).length_le)

/-- Python `s.split()` (no separator argument: split on whitespace runs,
discarding empty fields). -/
def pySplit (s : String) : List String := (splitWords s.data).map String.mk

/-! ## Index store (rag.py: Pinecone helpers)

The external store is modelled as the list of index names its listing
returns, in listing order (`pinecone_client.list_indexes().names()`).
`delete_index` is a remote call that can fail; its outcome is the
`deleteOk` parameter (the code catches the exception and proceeds). -/

/-- `pinecone_client.list_indexes().names()`. -/
def list_indexes (store : List String) : List String := store

/-- rag.py `create_index_if_not_exists_async` (the body of `_sync`):
no-op when the name is listed; otherwise, when 5 or more indexes are
listed, best-effort delete of `names[0]` (the first listed name), then
create the new index. -/
def create_index_if_not_exists (deleteOk : Bool) (store : List String)
    (index_name : String) : List String :=
  let names := list_indexes store
  if index_name ∈ names then store
  else
    let store1 :=
      if 5 ≤ names.length then
        if deleteOk then store.erase names.headI else store
      else store
    store1 ++ [index_name]

theorem mem_create_index_if_not_exists (d : Bool) (store : List String)
    (name : String) : name ∈ create_index_if_not_exists d store name := by
  unfold create_index_if_not_exists list_indexes
  by_cases h : name ∈ store
  · simp [h]
  · simp [h]

/-- C1: A store listing exactly 5 indexes, ensured with a 6th distinct
name (delete succeeding): the result drops exactly the first-listed name,
appends exactly the new one, and still has 5 indexes. -/
theorem ensure_index_at_capacity (store : List String) (name : String)
    (hlen : store.length = 5) (hnd : store.Nodup) (hnew : name ∉ store) :
    create_index_if_not_exists true store name = store.tail ++ [name] ∧
    (create_index_if_not_exists true store name).length = 5 ∧
    store.headI ∉ create_index_if_not_exists true store name ∧
    name ∈ create_index_if_not_exists true store name ∧
    ∀ x ∈ store.tail, x ∈ create_index_if_not_exists true store name := by
  match store, hlen with
  | h :: t, hlen =>
    have hnd' : h ∉ t ∧ t.Nodup := by simpa using hnd
    have hres : create_index_if_not_exists true (h :: t) name = t ++ [name] := by
      unfold create_index_if_not_exists list_indexes
      simp only [if_neg hnew]
      have h4 : 4 ≤ t.length := by simp at hlen; omega
      simp [List.headI, h4]
    refine ⟨hres, ?_, ?_, mem_create_index_if_not_exists _ _ _, ?_⟩
    · rw [hres]
      simp at hlen
      simp [hlen]
    · rw [hres]
      intro hmem
      rcases List.mem_append.mp hmem with hmem | hmem
      · exact hnd'.1 hmem
      · simp at hmem
        exact hnew (hmem ▸ List.mem_cons_self h t)
    · intro x hx
      rw [hres]
      exact List.mem_append_left _ hx

/-- C2: `create_index_if_not_exists` is idempotent: an already-listed name
causes a no-op, and after one call a second call with the same name changes
nothing, leaving exactly one index of that name. -/
theorem ensure_index_idempotent (d : Bool) (store : List String)
    (name : String) (hnd : store.Nodup) :
    (name ∈ store → create_index_if_not_exists d store name = store) ∧
    create_index_if_not_exists d (create_index_if_not_exists d store name) name
      = create_index_if_not_exists d store name ∧
    (create_index_if_not_exists d store name).count name = 1 := by
  have hnoop : ∀ s : List String, name ∈ s →
      create_index_if_not_exists d s name = s := by
    intro s hs
    unfold create_index_if_not_exists list_indexes
    simp [hs]
  refine ⟨hnoop store, hnoop _ (mem_create_index_if_not_exists d store name), ?_⟩
  by_cases h : name ∈ store
  · rw [hnoop store h]
    exact List.count_eq_one_of_mem hnd h
  · unfold create_index_if_not_exists list_indexes
    simp only [if_neg h]
    have hsub : ∀ s1 : List String,
        (if 5 ≤ store.length then if d then store.erase store.headI else store
          else store) = s1 → name ∉ s1 := by
      intro s1 hs1
      subst hs1
      split
      · split
        · exact fun hmem => h (List.erase_subset _ _ hmem)
        · exact h
      · exact h
    have hcount : (if 5 ≤ store.length then
        if d then store.erase store.headI else store else store).count name = 0 :=
      List.count_eq_zero_of_not_mem (hsub _ rfl)
    rw [List.count_append, hcount]
    simp

/-- Concrete check for C1: store of five indexes, new sixth name. -/
theorem ensure_index_at_capacity_witness :
    create_index_if_not_exists true ["i1", "i2", "i3", "i4", "i5"] "i6"
      = ["i2", "i3", "i4", "i5", "i6"] ∧
    (create_index_if_not_exists true ["i1", "i2", "i3", "i4", "i5"] "i6").length = 5 := by
  have h := ensure_index_at_capacity ["i1", "i2", "i3", "i4", "i5"] "i6"
    (by decide) (by decide) (by decide)
  exact ⟨h.1, h.2.1⟩

/-- Concrete check for C2: double insertion of the same name. -/
theorem ensure_index_idempotent_witness :
    create_index_if_not_exists false
        (create_index_if_not_exists false ["a"] "b") "b"
      = create_index_if_not_exists false ["a"] "b" ∧
    (create_index_if_not_exists false ["a"] "b").count "b" = 1 := by
  have h := ensure_index_idempotent false ["a"] "b" (by decide)
  exact ⟨h.2.1, h.2.2⟩

/-! ## Remote embedding client (rag.py: RemoteEmbeddingClient) -/

/-- The batching loop of `aembed_documents`: Python
`for i in range(0, len(texts), batch_size)` slices `texts[i:i+batch_size]`,
issues one remote call per batch, and concatenates the per-batch results in
order (`asyncio.gather` preserves the order of its task list).  The remote
API is the parameter `api`; vectors are an arbitrary type `V`.  Only
invoked for a non-zero batch size (`range` with step 0 raises before this
loop runs). -/
def embedBatches {V : Type} (bs : Nat) (api : List String → List V) :
    List String → List V
  | [] => []
  | t :: ts => api ((t :: ts).take bs) ++ embedBatches bs api (ts.drop (bs - 1))
termination_by texts => texts.length
decreasing_by
  exact Nat.lt_succ_of_le ((List.drop_sublist _ _).length_le)

/-- rag.py `RemoteEmbeddingClient.aembed_documents`: `none` models the
`ValueError` that `range(0, len(texts), 0)` raises when the configured
batch size is 0; otherwise the concatenated per-batch embeddings. -/
def aembed_documents {V : Type} (bs : Nat) (api : List String → List V)
    (texts : List String) : Option (List V) :=
  if bs = 0 then none else some (embedBatches bs api texts)

theorem embedBatches_map {V : Type} (bs : Nat) (hbs : bs ≠ 0)
    (api : List String → List V) (f : String → V)
    (hapi : ∀ b, api b = b.map f) (texts : List String) :
    embedBatches bs api texts = texts.map f := by
  have key : ∀ (n : Nat) (l : List String), l.length = n →
      embedBatches bs api l = l.map f := by
    intro n
    induction n using Nat.strong_induction_on with
    | _ n ih =>
      intro l hn
      match l, hn with
      | [], hn => simp [embedBatches]
      | t :: ts, hn =>
        rw [embedBatches, hapi]
        have hlt : (ts.drop (bs - 1)).length < n := by
          rw [← hn]
          exact Nat.lt_succ_of_le ((List.drop_sublist _ _).length_le)
        rw [ih _ hlt _ rfl, ← List.map_append]
        congr 1
        have hdrop : ts.drop (bs - 1) = (t :: ts).drop bs := by
          match bs, hbs with
          | b + 1, _ => simp
        rw [hdrop, List.take_append_drop]
  exact key texts.length texts rfl

/-- C3 (amended to batch sizes ≥ 1): when every remote call returns
exactly one vector per text of its batch, `aembed_documents` returns
exactly one vector per input text, the i-th being the embedding of the
i-th input (batches concatenated in input order). -/
theorem aembed_documents_order {V : Type} (bs : Nat) (hbs : bs ≠ 0)
    (api : List String → List V) (f : String → V)
    (hapi : ∀ b, api b = b.map f) (texts : List String) :
    aembed_documents bs api texts = some (texts.map f) ∧
    ∀ r, aembed_documents bs api texts = some r → r.length = texts.length := by
  have h := embedBatches_map bs hbs api f hapi texts
  refine ⟨by simp [aembed_documents, hbs, h], ?_⟩
  intro r hr
  simp [aembed_documents, hbs, h] at hr
  rw [← hr, List.length_map]

/-- A concrete embedding function and remote API for the checks below. -/
def zeroVec : String → Nat := fun _ => 0

/-- A remote API returning exactly one vector per text of each batch. -/
def zeroApi : List String → List Nat := fun b => b.map zeroVec

/-- C3 as frozen is false at batch size 0: `range(0, len(texts), 0)` raises
`ValueError`, so no vectors are returned at all (modelled as `none`). -/
theorem aembed_documents_zero_batch_counterexample :
    aembed_documents 0 zeroApi ["a"] ≠ some (["a"].map zeroVec) := by
  simp [aembed_documents]

/-- Concrete check for C3: three texts, batch size 2. -/
theorem aembed_documents_order_witness :
    aembed_documents 2 zeroApi ["a", "b", "c"]
      = some (["a", "b", "c"].map zeroVec) :=
  (aembed_documents_order 2 (by decide) zeroApi zeroVec
    (fun _ => rfl) ["a", "b", "c"]).1

/-! ## Vector search and /ask (rag.py) -/

/-- rag.py `_search_index_sync`: `none` models a raised store error
(caught and turned into `""`); `some texts` the metadata texts of the
returned matches, joined with the match separator. -/
def search_index_sync (queryResult : Option (List String)) : String :=
  match queryResult with
  | none => ""
  | some texts => pyJoin "\n\n---\n\n" texts

/-- rag.py `ask`, after the question has been embedded and the store
queried for the context: first component the response `answer`, second
component whether `answer_with_context_groq` (the synthesis LLM call) was
invoked; `llmAnswer` is what that call would return. -/
def ask (context : String) (llmAnswer : String) : String × Bool :=
  if pyStrip context = "" then
    ("This information is not available in the indexed documents.", false)
  else (llmAnswer, true)

/-- C4: when the joined match text is empty — in particular when the store
query raised or returned no matches — `ask` answers with the fixed
"not available" string and never invokes the synthesis LLM. -/
theorem ask_empty_context (qr : Option (List String)) (llmAnswer : String)
    (h : search_index_sync qr = "") :
    ask (search_index_sync qr) llmAnswer
      = ("This information is not available in the indexed documents.", false) ∧
    (ask (search_index_sync qr) llmAnswer).2 = false ∧
    search_index_sync none = "" ∧ search_index_sync (some []) = "" := by
  rw [h]
  have hstrip : pyStrip "" = "" := by decide
  unfold ask
  rw [if_pos hstrip]
  exact ⟨rfl, rfl, rfl, rfl⟩

/-- Concrete check for C4: the store query raised. -/
theorem ask_empty_context_witness :
    ask (search_index_sync (none : Option (List String))) "ignored"
      = ("This information is not available in the indexed documents.", false) :=
  (ask_empty_context none "ignored" (by decide)).1

/-! ## Groq LLM failover (rag.py) -/

/-- rag.py `optimize_text_for_rag`: one `ChatGroq` attempt per API key, in
the (already shuffled) key order; `attempt k = some c` models a response
whose `content` attribute is `c` (`c = ""` is falsy and skipped exactly
like a failure), `none` a raised exception or a falsy response; the first
truthy content is returned stripped; once every key has failed the
original input text is returned. -/
def optimize_text_for_rag (attempt : String → Option String)
    (shuffled_keys : List String) (text : String) : String :=
  match shuffled_keys with
  | [] => text
  | key :: rest =>
    match attempt key with
    | some content =>
      if content = "" then optimize_text_for_rag attempt rest text
      else pyStrip content
    | none => optimize_text_for_rag attempt rest text

/-- rag.py `answer_with_context_groq`: the same failover loop; once every
key has failed, the fixed failure string. -/
def answer_with_context_groq (attempt : String → Option String)
    (shuffled_keys : List String) : String :=
  match shuffled_keys with
  | [] => "The answer could not be generated due to an external service error."
  | key :: rest =>
    match attempt key with
    | some content =>
      if content = "" then answer_with_context_groq attempt rest
      else pyStrip content
    | none => answer_with_context_groq attempt rest

/-- C5: when every configured key fails (raises, or yields no content),
`optimize_text_for_rag` returns its input unchanged and
`answer_with_context_groq` returns the fixed failure string; both are
total functions of the attempt outcomes, so neither propagates an
exception. -/
theorem groq_all_keys_fail (attempt : String → Option String)
    (shuffled_keys : List String) (text : String)
    (h : ∀ k ∈ shuffled_keys, attempt k = none ∨ attempt k = some "") :
    optimize_text_for_rag attempt shuffled_keys text = text ∧
    answer_with_context_groq attempt shuffled_keys
      = "The answer could not be generated due to an external service error." := by
  induction shuffled_keys with
  | nil => exact ⟨rfl, rfl⟩
  | cons k rest ih =>
    have hk := h k (List.mem_cons_self _ _)
    have hrest := ih (fun x hx => h x (List.mem_cons_of_mem _ hx))
    rcases hk with hk | hk <;>
      simp [optimize_text_for_rag, answer_with_context_groq, hk, hrest]

/-- An attempt function under which every key raises. -/
def alwaysFail : String → Option String := fun _ => none

/-- Concrete check for C5: two keys, both raising. -/
theorem groq_all_keys_fail_witness :
    optimize_text_for_rag alwaysFail ["k1", "k2"] "RAW TEXT" = "RAW TEXT" ∧
    answer_with_context_groq alwaysFail ["k1", "k2"]
      = "The answer could not be generated due to an external service error." :=
  groq_all_keys_fail alwaysFail ["k1", "k2"] "RAW TEXT" (fun _ _ => Or.inl rfl)

/-! ## Scraper (scraper.py)

Both extractors and the network fetch are external effects: an extractor is
a parameter `String → Option String` (`none` = it returned `None`), the
fetched HTML is an `Option String` (`none` = the request raised). -/

/-- Python truthiness of an optional string (`if not text: ...`). -/
def truthy : Option String → Bool
  | none => false
  | some s => !(s == "")

/-- scraper.py `extract_static` for one URL, with the fetch and the two
HTML processors as parameters: `fetched = none` models `requests.get`
raising (the caught-exception path that returns `None`), `traf` is
`trafilatura_extract` over the fetched HTML, `soup_text` the BeautifulSoup
stripped-tag plain text (`soup.get_text`, always a string). -/
def extract_static (fetched : Option String)
    (traf : String → Option String) (soup_text : String → String) :
    Option String :=
  match fetched with
  | none => none
  | some html =>
    if truthy (traf html) ∧ 200 < (pyStrip ((traf html).getD "")).length then
      traf html
    else if soup_text html ≠ "" ∧ 200 < (pyStrip (soup_text html)).length then
      some (soup_text html)
    else none

/-- C7: the static path returns the heuristic's result only when that
result is present (truthy) and not below the 200-character stripped-length
minimum; when the heuristic result is missing or below the threshold the
path falls back to the stripped-tag plain text or yields nothing; when
that fallback is also missing or below the threshold it yields `none`; a
raised fetch also yields `none`. -/
theorem extract_static_threshold (traf : String → Option String)
    (soup_text : String → String) (html : String) :
    (∀ t, extract_static (some html) traf soup_text = some t →
      traf html = some t → t ≠ "" ∧ 200 ≤ (pyStrip t).length) ∧
    ((traf html = none ∨
        ∃ t, traf html = some t ∧ (t = "" ∨ (pyStrip t).length < 200)) →
      (extract_static (some html) traf soup_text = some (soup_text html) ∨
        extract_static (some html) traf soup_text = none) ∧
      ((soup_text html = "" ∨ (pyStrip (soup_text html)).length < 200) →
        extract_static (some html) traf soup_text = none)) ∧
    extract_static none traf soup_text = none := by
  have hdef : extract_static (some html) traf soup_text
      = if truthy (traf html) = true ∧
            200 < (pyStrip ((traf html).getD "")).length then traf html
        else if soup_text html ≠ "" ∧
            200 < (pyStrip (soup_text html)).length then some (soup_text html)
        else none := rfl
  refine ⟨?_, ?_, rfl⟩
  · intro t hres htraf
    rw [hdef] at hres
    by_cases h1 : truthy (traf html) = true ∧
        200 < (pyStrip ((traf html).getD "")).length
    · rw [if_pos h1] at hres
      rw [hres] at htraf h1
      have ht : t ≠ "" := by
        have := h1.1
        simp [truthy] at this
        exact this
      exact ⟨ht, by have := h1.2; simp [Option.getD] at this; omega⟩
    · rw [if_neg h1] at hres
      by_cases h2 : soup_text html ≠ "" ∧ 200 < (pyStrip (soup_text html)).length
      · rw [if_pos h2] at hres
        have ht : t = soup_text html := by
          injection hres with h
          exact h.symm
        subst ht
        exact ⟨h2.1, Nat.le_of_lt h2.2⟩
      · rw [if_neg h2] at hres
        exact absurd hres (by simp)
  · intro hmiss
    have h1 : ¬ (truthy (traf html) = true ∧
        200 < (pyStrip ((traf html).getD "")).length) := by
      rcases hmiss with hnone | ⟨t, ht, hbad⟩
      · rw [hnone]
        simp [truthy]
      · rw [ht]
        rcases hbad with hbad | hbad
        · subst hbad
          simp [truthy]
        · intro hcon
          have := hcon.2
          simp [Option.getD] at this
          omega
    constructor
    · rw [hdef, if_neg h1]
      by_cases h2 : soup_text html ≠ "" ∧ 200 < (pyStrip (soup_text html)).length
      · rw [if_pos h2]
        exact Or.inl rfl
      · rw [if_neg h2]
        exact Or.inr rfl
    · intro hraw
      have h2 : ¬ (soup_text html ≠ "" ∧ 200 < (pyStrip (soup_text html)).length) := by
        rcases hraw with hraw | hraw
        · exact fun hcon => hcon.1 hraw
        · exact fun hcon => by omega
      rw [hdef, if_neg h1, if_neg h2]

/-- A stripped-tag extractor returning no text at all. -/
def emptySoup : String → String := fun _ => ""

/-- Concrete check for C7: heuristic raises/misses and fallback is empty. -/
theorem extract_static_threshold_witness :
    extract_static (some "h") alwaysFail emptySoup = none :=
  ((extract_static_threshold alwaysFail emptySoup "h").2.1
    (Or.inl rfl)).2 (Or.inl rfl)

/-- The body of the per-URL loop of `fetch_and_combine`: try the static
extractor, fall back to the rendered-page extractor, then either the
source-headed text or the literal placeholder naming the URL. -/
def scrape_part (staticE jsE : String → Option String) (url : String) :
    String :=
  if truthy (staticE url) then
    "--- SOURCE: " ++ url ++ " ---\n" ++ (staticE url).getD "" ++ "\n"
  else if truthy (jsE url) then
    "--- SOURCE: " ++ url ++ " ---\n" ++ (jsE url).getD "" ++ "\n"
  else "[Could not extract content from: " ++ url ++ "]"

/-- The accumulation loop of `fetch_and_combine`: one appended part per
URL, in input order. -/
def fetch_parts (staticE jsE : String → Option String) :
    List String → List String
  | [] => []
  | url :: rest => scrape_part staticE jsE url :: fetch_parts staticE jsE rest

/-- scraper.py `fetch_and_combine`: the parts joined with a blank line and
the result stripped. -/
def fetch_and_combine (staticE jsE : String → Option String)
    (urls : List String) : String :=
  pyStrip (pyJoin "\n\n" (fetch_parts staticE jsE urls))

/-- C6: `fetch_and_combine` (a total function of the extractor outcomes —
it never raises) produces exactly one part per URL, in input-URL order;
a URL's part is its extracted text under a source header when either
extractor succeeds, and the literal placeholder naming the URL when both
fail. -/
theorem fetch_and_combine_per_url (staticE jsE : String → Option String)
    (urls : List String) :
    fetch_parts staticE jsE urls = urls.map (scrape_part staticE jsE) ∧
    (fetch_parts staticE jsE urls).length = urls.length ∧
    fetch_and_combine staticE jsE urls
      = pyStrip (pyJoin "\n\n" (urls.map (scrape_part staticE jsE))) ∧
    (∀ url t, staticE url = some t → t ≠ "" →
      scrape_part staticE jsE url
        = "--- SOURCE: " ++ url ++ " ---\n" ++ t ++ "\n") ∧
    (∀ url t, truthy (staticE url) = false → jsE url = some t → t ≠ "" →
      scrape_part staticE jsE url
        = "--- SOURCE: " ++ url ++ " ---\n" ++ t ++ "\n") ∧
    (∀ url, truthy (staticE url) = false → truthy (jsE url) = false →
      scrape_part staticE jsE url
        = "[Could not extract content from: " ++ url ++ "]") := by
  have hmap : fetch_parts staticE jsE urls = urls.map (scrape_part staticE jsE) := by
    induction urls with
    | nil => rfl
    | cons u us ih => simp [fetch_parts, ih]
  refine ⟨hmap, by rw [hmap, List.length_map], by unfold fetch_and_combine; rw [hmap],
    ?_, ?_, ?_⟩
  · intro url t hs ht
    have htr : truthy (staticE url) = true := by simp [hs, truthy, ht]
    unfold scrape_part
    rw [if_pos htr, hs]
    rfl
  · intro url t hs hjs ht
    have htr : truthy (jsE url) = true := by simp [hjs, truthy, ht]
    unfold scrape_part
    rw [if_neg (by simp [hs]), if_pos htr, hjs]
    rfl
  · intro url hs hjs
    unfold scrape_part
    rw [if_neg (by simp [hs]), if_neg (by simp [hjs])]

/-- A static extractor that always succeeds with fixed text. -/
def alwaysText : String → Option String := fun _ => some "PAGE TEXT"

/-- Concrete check for C6: one URL with a successful static extraction,
one URL where both extractors fail. -/
theorem fetch_and_combine_per_url_witness :
    scrape_part alwaysText alwaysFail "u"
      = "--- SOURCE: " ++ "u" ++ " ---\n" ++ "PAGE TEXT" ++ "\n" ∧
    scrape_part alwaysFail alwaysFail "v"
      = "[Could not extract content from: " ++ "v" ++ "]" :=
  ⟨(fetch_and_combine_per_url alwaysText alwaysFail ["u"]).2.2.2.1 "u"
      "PAGE TEXT" rfl (by decide),
    (fetch_and_combine_per_url alwaysFail alwaysFail ["v"]).2.2.2.2.2 "v" rfl rfl⟩

/-! ## /analyze: the extraction guard (rag.py) -/

/-- rag.py `analyze`'s HTTP-500 guard:
`if not combined_text or len(combined_text.strip()) == 0`. -/
def extraction_failed_guard (combined_text : String) : Bool :=
  (combined_text == "") || ((pyStrip combined_text).length == 0)

theorem exists_nonws_dropWhile {l : List Char}
    (h : ∃ c ∈ l, c.isWhitespace = false) :
    ∃ c ∈ l.dropWhile Char.isWhitespace, c.isWhitespace = false := by
  obtain ⟨c, hc, hws⟩ := h
  rw [← List.takeWhile_append_dropWhile Char.isWhitespace l] at hc
  rcases List.mem_append.mp hc with h1 | h1
  · exact absurd (List.mem_takeWhile_imp h1) (by simp [hws])
  · exact ⟨c, h1, hws⟩

theorem exists_nonws_stripChars {l : List Char}
    (h : ∃ c ∈ l, c.isWhitespace = false) :
    ∃ c ∈ stripChars l, c.isWhitespace = false := by
  unfold stripChars
  have h1 := exists_nonws_dropWhile h
  have h2 : ∃ c ∈ (l.dropWhile Char.isWhitespace).reverse,
      c.isWhitespace = false := by
    obtain ⟨c, hc, hws⟩ := h1
    exact ⟨c, List.mem_reverse.mpr hc, hws⟩
  obtain ⟨c, hc, hws⟩ := exists_nonws_dropWhile h2
  exact ⟨c, List.mem_reverse.mpr hc, hws⟩

theorem stripChars_ne_nil {l : List Char}
    (h : ∃ c ∈ l, c.isWhitespace = false) : stripChars l ≠ [] := by
  obtain ⟨c, hc, _⟩ := exists_nonws_stripChars h
  intro hn
  rw [hn] at hc
  exact absurd hc (List.not_mem_nil c)

/-- C9: with a non-empty URL list, `fetch_and_combine` returns a string
that is non-empty and non-empty after stripping (every part carries a
non-whitespace character, whether header-plus-text or placeholder), so the
`analyze` 500 branch "Failed to extract content from provided URLs." is
unreachable once the non-empty-URLs validation has passed. -/
theorem analyze_guard_unreachable (staticE jsE : String → Option String)
    (urls : List String) (h : urls ≠ []) :
    extraction_failed_guard (fetch_and_combine staticE jsE urls) = false := by
  match urls, h with
  | url :: rest, _ =>
    have hpart : ∃ c ∈ (scrape_part staticE jsE url).data,
        c.isWhitespace = false := by
      unfold scrape_part
      by_cases h1 : truthy (staticE url) = true
      · rw [if_pos h1]
        refine ⟨'-', ?_, by decide⟩
        simp only [String.data_append]
        exact List.mem_append_left _ (List.mem_append_left _
          (List.mem_append_left _ (List.mem_append_left _ (by decide))))
      · rw [if_neg h1]
        by_cases h2 : truthy (jsE url) = true
        · rw [if_pos h2]
          refine ⟨'-', ?_, by decide⟩
          simp only [String.data_append]
          exact List.mem_append_left _ (List.mem_append_left _
            (List.mem_append_left _ (List.mem_append_left _ (by decide))))
        · rw [if_neg h2]
          refine ⟨'[', ?_, by decide⟩
          simp only [String.data_append]
          exact List.mem_append_left _ (List.mem_append_left _ (by decide))
    have hjoin : ∃ c ∈ (pyJoin "\n\n"
        (fetch_parts staticE jsE (url :: rest))).data, c.isWhitespace = false := by
      obtain ⟨c, hc, hws⟩ := hpart
      show ∃ c ∈ (pyJoin "\n\n"
        (scrape_part staticE jsE url :: fetch_parts staticE jsE rest)).data, _
      cases hr : fetch_parts staticE jsE rest with
      | nil => exact ⟨c, hc, hws⟩
      | cons q qs =>
        refine ⟨c, ?_, hws⟩
        show c ∈ (scrape_part staticE jsE url ++
          ("\n\n" ++ pyJoin "\n\n" (q :: qs))).data
        simp only [String.data_append]
        exact List.mem_append_left _ hc
    have h1 : stripChars (pyJoin "\n\n"
        (fetch_parts staticE jsE (url :: rest))).data ≠ [] :=
      stripChars_ne_nil hjoin
    have h2 : stripChars (stripChars (pyJoin "\n\n"
        (fetch_parts staticE jsE (url :: rest))).data) ≠ [] :=
      stripChars_ne_nil (exists_nonws_stripChars hjoin)
    unfold extraction_failed_guard fetch_and_combine
    rw [Bool.or_eq_false_iff]
    constructor
    · rw [beq_eq_false_iff_ne]
      intro heq
      apply h1
      have hd := congrArg String.data heq
      simpa [pyStrip] using hd
    · rw [beq_eq_false_iff_ne]
      intro heq
      apply h2
      have : (pyStrip (pyStrip (pyJoin "\n\n"
          (fetch_parts staticE jsE (url :: rest))))).data = [] :=
        List.length_eq_zero.mp heq
      simpa [pyStrip] using this

/-- Concrete check for C9: one URL, both extractors fail, yet the combined
text is non-empty (it is the placeholder) and the guard does not fire. -/
theorem analyze_guard_unreachable_witness :
    extraction_failed_guard (fetch_and_combine alwaysFail alwaysFail ["u"])
      = false :=
  analyze_guard_unreachable alwaysFail alwaysFail ["u"] (by decide)

/-! ## Word splitting: equation and commutation lemmas -/

theorem splitWords_nil : splitWords [] = [] := by
  simp [splitWords]

theorem splitWords_cons (c : Char) (cs : List Char) :
    splitWords (c :: cs) =
      if c.isWhitespace then splitWords cs
      else (c :: cs.takeWhile (fun x => !x.isWhitespace)) ::
        splitWords (cs.dropWhile (fun x => !x.isWhitespace)) := by
  rw [splitWords]

theorem isWhitespace_toLower (c : Char) :
    (Char.toLower c).isWhitespace = c.isWhitespace := by
  show (if c.toNat ≥ 65 ∧ c.toNat ≤ 90 then Char.ofNat (c.toNat + 32)
    else c).isWhitespace = c.isWhitespace
  split
  · rename_i h
    have hrange : ∀ k, k < 123 → 97 ≤ k → (Char.ofNat k).isWhitespace = false := by
      decide
    have h1 : (Char.ofNat (Char.toNat c + 32)).isWhitespace = false :=
      hrange _ (by omega) (by omega)
    have h2 : c.isWhitespace = false := by
      by_contra hcon
      rw [Bool.not_eq_false] at hcon
      simp only [Char.isWhitespace, Bool.or_eq_true, decide_eq_true_eq] at hcon
      rcases hcon with ((hc | hc) | hc) | hc <;> (subst hc; revert h; decide)
    rw [h1, h2]
  · rfl

theorem takeWhile_all {α : Type} {p : α → Bool} {xs : List α}
    (h : ∀ x ∈ xs, p x = true) : xs.takeWhile p = xs := by
  simpa using @List.takeWhile_append_of_pos α p xs [] (fun a ha => h a ha)

theorem dropWhile_all {α : Type} {p : α → Bool} {xs : List α}
    (h : ∀ x ∈ xs, p x = true) : xs.dropWhile p = [] := by
  simpa using @List.dropWhile_append_of_pos α p xs [] (fun a ha => h a ha)

theorem takeWhile_append_stop {α : Type} {p : α → Bool} {xs ys : List α}
    (h : ∃ x ∈ xs, p x = false) : (xs ++ ys).takeWhile p = xs.takeWhile p := by
  induction xs with
  | nil =>
    obtain ⟨x, hx, _⟩ := h
    exact absurd hx (List.not_mem_nil x)
  | cons a as ih =>
    simp only [List.cons_append, List.takeWhile_cons]
    by_cases hp : p a = true
    · obtain ⟨x, hx, hpx⟩ := h
      rcases List.mem_cons.mp hx with heq | hx'
      · subst heq
        exact absurd hp (by simp [hpx])
      · simp [hp, ih ⟨x, hx', hpx⟩]
    · simp [hp]

theorem dropWhile_append_stop {α : Type} {p : α → Bool} {xs ys : List α}
    (h : ∃ x ∈ xs, p x = false) :
    (xs ++ ys).dropWhile p = xs.dropWhile p ++ ys := by
  induction xs with
  | nil =>
    obtain ⟨x, hx, _⟩ := h
    exact absurd hx (List.not_mem_nil x)
  | cons a as ih =>
    simp only [List.cons_append, List.dropWhile_cons]
    by_cases hp : p a = true
    · obtain ⟨x, hx, hpx⟩ := h
      rcases List.mem_cons.mp hx with heq | hx'
      · subst heq
        exact absurd hp (by simp [hpx])
      · simp [hp, ih ⟨x, hx', hpx⟩]
    · simp [hp]

theorem takeWhile_nonws_all_ws {t : List Char}
    (h : ∀ c ∈ t, c.isWhitespace = true) :
    t.takeWhile (fun x => !x.isWhitespace) = [] := by
  cases t with
  | nil => rfl
  | cons y ys => simp [List.takeWhile_cons, h y (List.mem_cons_self _ _)]

theorem dropWhile_nonws_all_ws {t : List Char}
    (h : ∀ c ∈ t, c.isWhitespace = true) :
    t.dropWhile (fun x => !x.isWhitespace) = t := by
  cases t with
  | nil => rfl
  | cons y ys => simp [List.dropWhile_cons, h y (List.mem_cons_self _ _)]

theorem splitWords_all_ws {t : List Char}
    (h : ∀ c ∈ t, c.isWhitespace = true) : splitWords t = [] := by
  induction t with
  | nil => exact splitWords_nil
  | cons c cs ih =>
    rw [splitWords_cons, if_pos (h c (List.mem_cons_self _ _))]
    exact ih (fun x hx => h x (List.mem_cons_of_mem _ hx))

theorem splitWords_append_ws (l t : List Char)
    (ht : ∀ c ∈ t, c.isWhitespace = true) :
    splitWords (l ++ t) = splitWords l := by
  have key : ∀ (n : Nat) (l : List Char), l.length = n →
      splitWords (l ++ t) = splitWords l := by
    intro n
    induction n using Nat.strong_induction_on with
    | _ n ih =>
      intro l hn
      match l, hn with
      | [], _ =>
        rw [List.nil_append, splitWords_all_ws ht, splitWords_nil]
      | c :: cs, hn =>
        rw [List.cons_append, splitWords_cons, splitWords_cons]
        by_cases hws : c.isWhitespace = true
        · rw [if_pos hws, if_pos hws]
          exact ih cs.length (by rw [← hn]; simp) cs rfl
        · rw [if_neg hws, if_neg hws]
          by_cases hall : ∀ x ∈ cs, (!x.isWhitespace) = true
          · have htake : (cs ++ t).takeWhile (fun x => !x.isWhitespace)
                = cs ++ t.takeWhile (fun x => !x.isWhitespace) :=
              List.takeWhile_append_of_pos (fun a ha => hall a ha)
            have hdrop : (cs ++ t).dropWhile (fun x => !x.isWhitespace)
                = t.dropWhile (fun x => !x.isWhitespace) :=
              List.dropWhile_append_of_pos (fun a ha => hall a ha)
            rw [htake, takeWhile_nonws_all_ws ht, List.append_nil,
              takeWhile_all hall, hdrop, dropWhile_nonws_all_ws ht,
              splitWords_all_ws ht, dropWhile_all hall, splitWords_nil]
          · have hex : ∃ x ∈ cs, (!x.isWhitespace) = false := by
              push_neg at hall
              obtain ⟨x, hx, hpx⟩ := hall
              exact ⟨x, hx, by simpa using hpx⟩
            rw [takeWhile_append_stop hex, dropWhile_append_stop hex]
            congr 1
            exact ih (cs.dropWhile (fun x => !x.isWhitespace)).length
              (by rw [← hn];
                  exact Nat.lt_succ_of_le ((List.dropWhile_sublist _).length_le))
              _ rfl
  exact key l.length l rfl

theorem splitWords_dropWhile_ws (l : List Char) :
    splitWords (l.dropWhile Char.isWhitespace) = splitWords l := by
  induction l with
  | nil => rfl
  | cons c cs ih =>
    by_cases hws : c.isWhitespace = true
    · rw [List.dropWhile_cons, if_pos hws, ih, splitWords_cons, if_pos hws]
    · simp [List.dropWhile_cons, hws]

theorem splitWords_stripChars (l : List Char) :
    splitWords (stripChars l) = splitWords l := by
  unfold stripChars
  have hws : ∀ c ∈ ((l.dropWhile Char.isWhitespace).reverse.takeWhile
      Char.isWhitespace).reverse, c.isWhitespace = true := by
    intro c hc
    exact List.mem_takeWhile_imp (List.mem_reverse.mp hc)
  have hdecomp : l.dropWhile Char.isWhitespace
      = ((l.dropWhile Char.isWhitespace).reverse.dropWhile Char.isWhitespace).reverse
        ++ ((l.dropWhile Char.isWhitespace).reverse.takeWhile
            Char.isWhitespace).reverse := by
    rw [← List.reverse_append, List.takeWhile_append_dropWhile, List.reverse_reverse]
  calc splitWords ((l.dropWhile Char.isWhitespace).reverse.dropWhile
        Char.isWhitespace).reverse
      = splitWords (((l.dropWhile Char.isWhitespace).reverse.dropWhile
          Char.isWhitespace).reverse
        ++ ((l.dropWhile Char.isWhitespace).reverse.takeWhile
            Char.isWhitespace).reverse) := (splitWords_append_ws _ _ hws).symm
    _ = splitWords (l.dropWhile Char.isWhitespace) := by rw [← hdecomp]
    _ = splitWords l := splitWords_dropWhile_ws l

theorem splitWords_map_toLower (l : List Char) :
    splitWords (l.map Char.toLower)
      = (splitWords l).map (List.map Char.toLower) := by
  have hq : ((fun x => !x.isWhitespace) ∘ Char.toLower)
      = (fun x : Char => !x.isWhitespace) := by
    funext x
    simp [Function.comp, isWhitespace_toLower]
  have key : ∀ (n : Nat) (l : List Char), l.length = n →
      splitWords (l.map Char.toLower)
        = (splitWords l).map (List.map Char.toLower) := by
    intro n
    induction n using Nat.strong_induction_on with
    | _ n ih =>
      intro l hn
      match l, hn with
      | [], _ => simp [splitWords_nil]
      | c :: cs, hn =>
        rw [List.map_cons, splitWords_cons, splitWords_cons, isWhitespace_toLower]
        by_cases hws : c.isWhitespace = true
        · rw [if_pos hws, if_pos hws]
          exact ih cs.length (by rw [← hn]; simp) cs rfl
        · rw [if_neg hws, if_neg hws, List.takeWhile_map, List.dropWhile_map, hq,
            List.map_cons, List.map_cons]
          congr 1
          exact ih (cs.dropWhile (fun x => !x.isWhitespace)).length
            (by rw [← hn];
                exact Nat.lt_succ_of_le ((List.dropWhile_sublist _).length_le))
            _ rfl
  exact key l.length l rfl

theorem splitWords_single (c : Char) (cs : List Char)
    (h : ∀ x ∈ c :: cs, x.isWhitespace = false) :
    splitWords (c :: cs) = [c :: cs] := by
  rw [splitWords_cons, if_neg (by simp [h c (List.mem_cons_self _ _)])]
  have htake : cs.takeWhile (fun x => !x.isWhitespace) = cs :=
    takeWhile_all (fun x hx => by simp [h x (List.mem_cons_of_mem _ hx)])
  have hdrop : cs.dropWhile (fun x => !x.isWhitespace) = [] :=
    dropWhile_all (fun x hx => by simp [h x (List.mem_cons_of_mem _ hx)])
  rw [htake, hdrop, splitWords_nil]

/-! ## Intent classifier (excel_generator.py / visuals.py) -/

/-- The shared classification step of `create_excel` / `create_visuals`:
`resp = some content` models an LLM reply whose `content` attribute is
`content`; `none` models `llm.ainvoke` raising.  The label is
`content.strip().lower().split()[0]`; the `IndexError` raised by `[0]` on
an empty token list is caught by the same `except`, defaulting like any
other failure. -/
def classify_intent (resp : Option String) (fallback : String) : String :=
  match resp with
  | none => fallback
  | some content =>
    match pySplit (pyLower (pyStrip content)) with
    | [] => fallback
    | tok :: _ => tok

/-- excel_generator.py `create_excel`'s intent step (fallback `"excel"`). -/
def excel_intent (resp : Option String) : String := classify_intent resp "excel"

/-- visuals.py `create_visuals`'s intent step (fallback `"viz"`). -/
def viz_intent (resp : Option String) : String := classify_intent resp "viz"

/-- C8: the label is the first whitespace-delimited token of the LLM
response, lower-cased; on any classification failure (a raised call, or a
response with no token) each flow defaults to its structured-artifact
label (`"excel"` / `"viz"`), not the chat label. -/
theorem classify_intent_first_token (resp : Option String) :
    (∀ content tok rest, resp = some content → pySplit content = tok :: rest →
      excel_intent resp = pyLower tok ∧ viz_intent resp = pyLower tok) ∧
    ((resp = none ∨ ∃ content, resp = some content ∧ pySplit content = []) →
      excel_intent resp = "excel" ∧ viz_intent resp = "viz") := by
  have hkey : ∀ content : String,
      pySplit (pyLower (pyStrip content)) = (pySplit content).map pyLower := by
    intro content
    show (splitWords ((pyLower (pyStrip content)).data)).map String.mk
        = ((splitWords content.data).map String.mk).map pyLower
    have h1 : (pyLower (pyStrip content)).data
        = (stripChars content.data).map Char.toLower := rfl
    rw [h1, splitWords_map_toLower, splitWords_stripChars,
      List.map_map, List.map_map]
    rfl
  have hcl : ∀ (content fb : String),
      classify_intent (some content) fb
        = match pySplit (pyLower (pyStrip content)) with
          | [] => fb
          | tok :: _ => tok := fun _ _ => rfl
  constructor
  · intro content tok rest hresp hsplit
    subst hresp
    have hs : pySplit (pyLower (pyStrip content))
        = pyLower tok :: rest.map pyLower := by
      rw [hkey content, hsplit, List.map_cons]
    constructor
    · show classify_intent (some content) "excel" = pyLower tok
      rw [hcl, hs]
    · show classify_intent (some content) "viz" = pyLower tok
      rw [hcl, hs]
  · intro hfail
    rcases hfail with hnone | ⟨content, hresp, hsplit⟩
    · subst hnone
      exact ⟨rfl, rfl⟩
    · subst hresp
      have hs : pySplit (pyLower (pyStrip content)) = [] := by
        rw [hkey content, hsplit]
        rfl
      constructor
      · show classify_intent (some content) "excel" = "excel"
        rw [hcl, hs]
      · show classify_intent (some content) "viz" = "viz"
        rw [hcl, hs]

/-- Concrete check for C8: a one-token reply is taken lower-cased as the
label; a raised classification call defaults to the artifact labels. -/
theorem classify_intent_first_token_witness :
    excel_intent (some "OK") = pyLower "OK" ∧
    viz_intent (some "OK") = pyLower "OK" ∧
    excel_intent none = "excel" ∧ viz_intent none = "viz" := by
  have hsplit : pySplit "OK" = ["OK"] := by
    show (splitWords "OK".data).map String.mk = ["OK"]
    rw [show "OK".data = ['O', 'K'] from rfl,
      splitWords_single 'O' ['K'] (by decide)]
    rfl
  have h1 := (classify_intent_first_token (some "OK")).1 "OK" "OK" [] rfl hsplit
  have h2 := (classify_intent_first_token none).2 (Or.inl rfl)
  exact ⟨h1.1, h1.2, h2.1, h2.2⟩

/-! ## /analyze: effect ordering after the guard (rag.py, C10) -/

/-- rag.py `analyze` after the extraction guard: the per-request index is
ensured first, then the combined text is optimized, then
`process_text_and_upsert` (chunk, embed, upsert) runs on the optimized
text.  `process_raises ot = true` models that step raising on the
optimized text `ot` (a chunking, embedding or upsert failure); the
exception propagates and no step deletes the index.  Result: the store
after the request, and whether the request completed. -/
def analyze_after_guard (deleteOk : Bool) (store : List String)
    (index_name : String) (attempt : String → Option String)
    (shuffled_keys : List String) (combined_text : String)
    (process_raises : String → Bool) : List String × Bool :=
  let store1 := create_index_if_not_exists deleteOk store index_name
  let optimized := optimize_text_for_rag attempt shuffled_keys combined_text
  if process_raises optimized then (store1, false) else (store1, true)

/-- C10: `analyze` is not atomic on failure: if chunking/embedding/upsert
raises, the request fails but the store still holds the index ensured
before that step — nothing deletes it — and below the 5-index ceiling the
store's index count remains incremented by one. -/
theorem analyze_not_atomic (deleteOk : Bool) (store : List String)
    (index_name : String) (attempt : String → Option String)
    (shuffled_keys : List String) (combined_text : String)
    (process_raises : String → Bool)
    (hfail : process_raises
      (optimize_text_for_rag attempt shuffled_keys combined_text) = true) :
    (analyze_after_guard deleteOk store index_name attempt shuffled_keys
        combined_text process_raises).2 = false ∧
    (analyze_after_guard deleteOk store index_name attempt shuffled_keys
        combined_text process_raises).1
      = create_index_if_not_exists deleteOk store index_name ∧
    index_name ∈ (analyze_after_guard deleteOk store index_name attempt
        shuffled_keys combined_text process_raises).1 ∧
    (index_name ∉ store → store.length < 5 →
      (analyze_after_guard deleteOk store index_name attempt shuffled_keys
          combined_text process_raises).1.length = store.length + 1) := by
  have hdef : analyze_after_guard deleteOk store index_name attempt
      shuffled_keys combined_text process_raises
      = (create_index_if_not_exists deleteOk store index_name, false) := by
    unfold analyze_after_guard
    simp [hfail]
  refine ⟨by rw [hdef], by rw [hdef], ?_, ?_⟩
  · rw [hdef]
    exact mem_create_index_if_not_exists deleteOk store index_name
  · intro hnew hlt
    rw [hdef]
    show (create_index_if_not_exists deleteOk store index_name).length
      = store.length + 1
    unfold create_index_if_not_exists list_indexes
    rw [if_neg hnew, if_neg (by omega)]
    simp

/-- The `process_text_and_upsert` outcome used in the C10 check: it always
raises. -/
def alwaysRaises : String → Bool := fun _ => true

/-- Concrete check for C10: one prior index, a fresh per-request index
name, the upsert step raising. -/
theorem analyze_not_atomic_witness :
    (analyze_after_guard false ["old"] "webindex-1" alwaysFail []
        "TEXT" alwaysRaises).2 = false ∧
    "webindex-1" ∈ (analyze_after_guard false ["old"] "webindex-1" alwaysFail []
        "TEXT" alwaysRaises).1 := by
  have h := analyze_not_atomic false ["old"] "webindex-1" alwaysFail []
    "TEXT" alwaysRaises rfl
  exact ⟨h.1, h.2.2.1⟩

end MajprojBack
